import Mathlib

/-!
Verification of the neural-network weight-optimization module (`neural.py`):
the weight codec (`flatten_weights` and `unflatten_weights`), the network
fitness evaluator (`NetworkWeights`), the gradient-descent loop
(`gradient_descent`) and the `NeuralNetwork` facade.  Matrices are modelled as
lists of rows of rationals.  External collaborators (activation functions,
loss functions, the randomized search algorithms, and the `ContinuousOpt`
problem wrapper from `opt_probs`) are abstracted as parameters, or modelled
from the specification where noted.
-/

/-- A numpy 2D array: a list of rows. -/
abbrev Mat : Type := List (List ℚ)

/-- Dot product of two vectors (truncating to the common length). -/
def dotRow (a b : List ℚ) : ℚ := (List.zipWith (fun x y => x * y) a b).sum

/-- Number of columns of a matrix, read off the first row (numpy `shape[1]`). -/
def numCols (m : Mat) : Nat := (m.headD []).length

/-- Matrix transpose. -/
def transposeM (m : Mat) : Mat :=
  (List.range (numCols m)).map (fun j => m.map (fun row => row.getD j 0))

/-- Matrix product, `np.dot`. -/
def matMul (a b : Mat) : Mat :=
  a.map (fun row => (transposeM b).map (fun col => dotRow row col))

/-- Elementwise difference of two matrices. -/
def matSub (a b : Mat) : Mat :=
  List.zipWith (fun r s => List.zipWith (fun x y => x - y) r s) a b

/-- Elementwise (Hadamard) product of two matrices. -/
def hadamard (a b : Mat) : Mat :=
  List.zipWith (fun r s => List.zipWith (fun x y => x * y) r s) a b

/-- Scalar multiple of a matrix. -/
def smulMat (c : ℚ) (m : Mat) : Mat := m.map (fun r => r.map (fun x => c * x))

/-- Apply a scalar function elementwise to a matrix. -/
def mapMat (f : ℚ → ℚ) (m : Mat) : Mat := m.map (fun r => r.map f)

/-- Row-major flattening of one matrix (`ndarray.flatten`). -/
def rowJoin (m : Mat) : List ℚ := m.foldr (fun r acc => r ++ acc) []

/-- Source `flatten_weights`: concatenate the row-major flattening of every
weight matrix, in layer order, into one flat list. -/
def flatten_weights (weights : List Mat) : List ℚ :=
  weights.foldr (fun w acc => rowJoin w ++ acc) []

/-- Split a flat list into `rows` consecutive rows of `cols` entries each. -/
def chunkRows (cols : Nat) : Nat → List ℚ → Mat
  | 0, _ => []
  | Nat.succ r, l => l.take cols :: chunkRows cols r (l.drop cols)

/-- Source `np.reshape(l, [rows, cols])`: fails unless the data size is
exactly `rows * cols`. -/
def np_reshape (l : List ℚ) (rows cols : Nat) : Except String Mat :=
  if l.length = rows * cols then Except.ok (chunkRows cols rows l)
  else Except.error "cannot reshape array"

/-- Loop of `unflatten_weights`: walk the node list pairwise, consume
`node_list[i] * node_list[i+1]` entries of the flat vector and reshape them
into a matrix; the running cursor `start` of the source is rendered by
dropping the consumed front of the list. -/
def unflattenGo (flat : List ℚ) : List Nat → Except String (List Mat)
  | a :: b :: rest =>
    match np_reshape (flat.take (a * b)) a b with
    | Except.error e => Except.error e
    | Except.ok w =>
      match unflattenGo (flat.drop (a * b)) (b :: rest) with
      | Except.error e => Except.error e
      | Except.ok ws => Except.ok (w :: ws)
  | _ => Except.ok []

/-- Source `unflatten_weights`. -/
def unflatten_weights (flat_weights : List ℚ) (node_list : List Nat) :
    Except String (List Mat) :=
  unflattenGo flat_weights node_list

/-- Expected flat-vector length for a topology: the sum of
`node_list[i] * node_list[i+1]` over consecutive pairs. -/
def expectedLen : List Nat → Nat
  | a :: b :: rest => a * b + expectedLen (b :: rest)
  | _ => 0

/-- Shape agreement between a weight-matrix list and a topology: one matrix
per consecutive pair, with matching row and column counts. -/
def shapesMatch : List Mat → List Nat → Bool
  | [], [] => true
  | [], [_] => true
  | w :: ws, a :: b :: rest =>
    w.length == a && w.all (fun row => row.length == b) && shapesMatch ws (b :: rest)
  | _, _ => false

/-- Success test for a codec result. -/
def isOkE (e : Except String (List Mat)) : Bool :=
  match e with
  | Except.ok _ => true
  | Except.error _ => false

theorem rowJoin_cons (r : List ℚ) (t : Mat) : rowJoin (r :: t) = r ++ rowJoin t := rfl

theorem flatten_weights_cons (w : Mat) (ws : List Mat) :
    flatten_weights (w :: ws) = rowJoin w ++ flatten_weights ws := rfl

theorem rowJoin_length (w : Mat) (b : Nat) (hc : ∀ r ∈ w, r.length = b) :
    (rowJoin w).length = w.length * b := by
  induction w with
  | nil => simp [rowJoin]
  | cons r t ih =>
    have hr : r.length = b := hc r (by simp)
    have ht : ∀ x ∈ t, x.length = b := fun x hx => hc x (by simp [hx])
    simp only [rowJoin_cons, List.length_append, ih ht, hr, List.length_cons]
    ring

theorem chunkRows_rowJoin (w : Mat) (b : Nat) (hc : ∀ r ∈ w, r.length = b) :
    chunkRows b w.length (rowJoin w) = w := by
  induction w with
  | nil => rfl
  | cons r t ih =>
    have hr : r.length = b := hc r (by simp)
    have ht : ∀ x ∈ t, x.length = b := fun x hx => hc x (by simp [hx])
    show chunkRows b (t.length + 1) (r ++ rowJoin t) = r :: t
    have h1 : (r ++ rowJoin t).take b = r := by
      rw [← hr]; exact List.take_left r (rowJoin t)
    have h2 : (r ++ rowJoin t).drop b = rowJoin t := by
      rw [← hr]; exact List.drop_left r (rowJoin t)
    simp [chunkRows, h1, h2, ih ht]

theorem rowJoin_chunkRows (l : List ℚ) (a b : Nat) (h : l.length = a * b) :
    rowJoin (chunkRows b a l) = l := by
  induction a generalizing l with
  | zero =>
    cases l with
    | nil => rfl
    | cons x t => simp at h
  | succ n ih =>
    have hd : (l.drop b).length = n * b := by
      simp only [List.length_drop, h, Nat.succ_mul]; omega
    simp only [chunkRows, rowJoin_cons, ih (l.drop b) hd]
    exact List.take_append_drop b l

theorem unflattenGo_ok_flatten (topo : List Nat) :
    ∀ v : List ℚ, v.length = expectedLen topo →
      ∃ ws, unflattenGo v topo = Except.ok ws ∧ flatten_weights ws = v := by
  induction topo with
  | nil =>
    intro v hv
    have : v = [] := List.length_eq_zero.mp hv
    exact ⟨[], by simp [unflattenGo], by simp [this, flatten_weights]⟩
  | cons a t ih =>
    cases t with
    | nil =>
      intro v hv
      have : v = [] := List.length_eq_zero.mp hv
      exact ⟨[], by simp [unflattenGo], by simp [this, flatten_weights]⟩
    | cons b rest =>
      intro v hv
      have hvl : v.length = a * b + expectedLen (b :: rest) := hv
      have htk : (v.take (a * b)).length = a * b := by
        simp only [List.length_take]; omega
      have hdl : (v.drop (a * b)).length = expectedLen (b :: rest) := by
        simp only [List.length_drop]; omega
      obtain ⟨ws, hws, hfl⟩ := ih (v.drop (a * b)) hdl
      refine ⟨chunkRows b a (v.take (a * b)) :: ws, ?_, ?_⟩
      · simp [unflattenGo, np_reshape, htk, hws]
      · rw [flatten_weights_cons, rowJoin_chunkRows _ a b htk, hfl]
        exact List.take_append_drop (a * b) v

theorem unflattenGo_flatten_eq (topo : List Nat) :
    ∀ M : List Mat, shapesMatch M topo = true →
      unflattenGo (flatten_weights M) topo = Except.ok M := by
  induction topo with
  | nil =>
    intro M hM
    cases M with
    | nil => rfl
    | cons w ws => simp [shapesMatch] at hM
  | cons a t ih =>
    cases t with
    | nil =>
      intro M hM
      cases M with
      | nil => rfl
      | cons w ws => simp [shapesMatch] at hM
    | cons b rest =>
      intro M hM
      cases M with
      | nil => simp [shapesMatch] at hM
      | cons w ws =>
        simp only [shapesMatch, Bool.and_eq_true, beq_iff_eq, List.all_eq_true] at hM
        obtain ⟨⟨hw, hc⟩, hrec⟩ := hM
        have hc2 : ∀ r ∈ w, r.length = b := fun r hr => hc r hr
        have hlen : (rowJoin w).length = a * b := by
          rw [rowJoin_length w b hc2, hw]
        have h1 : (flatten_weights (w :: ws)).take (a * b) = rowJoin w := by
          rw [flatten_weights_cons, ← hlen]
          exact List.take_left (rowJoin w) (flatten_weights ws)
        have h2 : (flatten_weights (w :: ws)).drop (a * b) = flatten_weights ws := by
          rw [flatten_weights_cons, ← hlen]
          exact List.drop_left (rowJoin w) (flatten_weights ws)
        have h3 : chunkRows b a (rowJoin w) = w := by
          rw [← hw]; exact chunkRows_rowJoin w b hc2
        simp [unflattenGo, np_reshape, h1, h2, hlen, h3, ih ws hrec]

/-- C1: Codec round-trip.  For every topology and every rational vector whose
length equals the sum of consecutive layer products, unflattening then
flattening reproduces the vector exactly; for every matrix list whose shapes
match consecutive topology pairs, flattening then unflattening reproduces the
matrices exactly (element-for-element, no tolerance). -/
theorem codec_round_trip (topo : List Nat) (v : List ℚ) (M : List Mat)
    (hv : v.length = expectedLen topo) (hM : shapesMatch M topo = true) :
    Except.map flatten_weights (unflatten_weights v topo) = Except.ok v ∧
    unflatten_weights (flatten_weights M) topo = Except.ok M := by
  constructor
  · obtain ⟨ws, h1, h2⟩ := unflattenGo_ok_flatten topo v hv
    simp [unflatten_weights, h1, Except.map, h2]
  · exact unflattenGo_flatten_eq topo M hM

/-- Witness for C1 at topology `[1, 2]`, vector `[1, 2]` and matrix list
`[[[1, 2]]]`. -/
theorem codec_round_trip_wit :
    (List.length [(1 : ℚ), 2] = expectedLen [1, 2]) ∧
    (shapesMatch [[[(1 : ℚ), 2]]] [1, 2] = true) ∧
    (Except.map flatten_weights (unflatten_weights [(1 : ℚ), 2] [1, 2]) =
        Except.ok [(1 : ℚ), 2] ∧
      unflatten_weights (flatten_weights [[[(1 : ℚ), 2]]]) [1, 2] =
        Except.ok [[[(1 : ℚ), 2]]]) :=
  ⟨rfl, rfl, codec_round_trip [1, 2] [(1 : ℚ), 2] [[[(1 : ℚ), 2]]] rfl rfl⟩

theorem unflattenGo_isOk_iff (topo : List Nat) :
    ∀ v : List ℚ, isOkE (unflattenGo v topo) = true ↔ expectedLen topo ≤ v.length := by
  induction topo with
  | nil => intro v; simp [unflattenGo, isOkE, expectedLen]
  | cons a t ih =>
    cases t with
    | nil => intro v; simp [unflattenGo, isOkE, expectedLen]
    | cons b rest =>
      intro v
      by_cases h : a * b ≤ v.length
      · have htk : (v.take (a * b)).length = a * b := by
          simp only [List.length_take]; omega
        have hdl : (v.drop (a * b)).length = v.length - a * b := by
          simp [List.length_drop]
        constructor
        · intro hok
          simp only [unflattenGo, np_reshape, htk, if_pos] at hok
          have := (ih (v.drop (a * b))).mp (by
            cases hgo : unflattenGo (v.drop (a * b)) (b :: rest) with
            | ok ws => simp [isOkE]
            | error e => simp [hgo, isOkE] at hok)
          show a * b + expectedLen (b :: rest) ≤ v.length
          omega
        · intro hle
          have hle2 : a * b + expectedLen (b :: rest) ≤ v.length := hle
          have hok2 := (ih (v.drop (a * b))).mpr (by omega)
          cases hgo : unflattenGo (v.drop (a * b)) (b :: rest) with
          | ok ws => simp [unflattenGo, np_reshape, htk, hgo, isOkE]
          | error e => simp [hgo, isOkE] at hok2
      · have htk : (v.take (a * b)).length ≠ a * b := by
          simp only [List.length_take]; omega
        constructor
        · intro hok
          simp [unflattenGo, np_reshape, h, isOkE] at hok
        · intro hle
          have hle2 : a * b + expectedLen (b :: rest) ≤ v.length := hle
          omega

theorem unflattenGo_take (topo : List Nat) :
    ∀ v : List ℚ, expectedLen topo ≤ v.length →
      unflattenGo v topo = unflattenGo (v.take (expectedLen topo)) topo := by
  induction topo with
  | nil => intro v hle; rfl
  | cons a t ih =>
    cases t with
    | nil => intro v hle; rfl
    | cons b rest =>
      intro v hle
      have hle2 : a * b + expectedLen (b :: rest) ≤ v.length := hle
      have hE : expectedLen (a :: b :: rest) = a * b + expectedLen (b :: rest) := rfl
      have h1 : (v.take (expectedLen (a :: b :: rest))).take (a * b) = v.take (a * b) := by
        rw [List.take_take]
        congr 1
        omega
      have h2 : (v.take (expectedLen (a :: b :: rest))).drop (a * b) =
          (v.drop (a * b)).take (expectedLen (b :: rest)) := by
        rw [List.drop_take]
        congr 1
        omega
      have h3 := ih (v.drop (a * b)) (by simp only [List.length_drop]; omega)
      simp only [unflattenGo, h1, h2, ← h3]

/-- C4 (amended): `unflatten_weights` fails with a shape error exactly when the
vector is too short; a vector that is too long succeeds silently, returning the
matrices decoded from the first `expectedLen` elements and ignoring the rest. -/
theorem unflatten_length_gate (v : List ℚ) (topo : List Nat) :
    (isOkE (unflatten_weights v topo) = true ↔ expectedLen topo ≤ v.length) ∧
    (expectedLen topo ≤ v.length →
      unflatten_weights v topo = unflatten_weights (v.take (expectedLen topo)) topo) :=
  ⟨unflattenGo_isOk_iff topo v, unflattenGo_take topo v⟩

/-- Witness for C4's amended theorem at vector `[1, 2, 3]` (too long) and
topology `[1, 2]`. -/
theorem unflatten_length_gate_wit :
    (expectedLen [1, 2] ≤ List.length [(1 : ℚ), 2, 3]) ∧
    unflatten_weights [(1 : ℚ), 2, 3] [1, 2] =
      unflatten_weights (List.take (expectedLen [1, 2]) [(1 : ℚ), 2, 3]) [1, 2] :=
  ⟨by decide, (unflatten_length_gate [(1 : ℚ), 2, 3] [1, 2]).2 (by decide)⟩

/-- C4 counterexample: the vector `[1, 2, 3]` is longer than the expected
length `2` for topology `[1, 2]`, yet `unflatten_weights` does not fail; it
silently returns the matrices built from the first two elements. -/
theorem unflatten_too_long_silent :
    (List.length [(1 : ℚ), 2, 3] ≠ expectedLen [1, 2]) ∧
    unflatten_weights [(1 : ℚ), 2, 3] [1, 2] = Except.ok [[[(1 : ℚ), 2]]] := by
  exact ⟨by decide, rfl⟩

/-- Output-activation kinds selectable by `NetworkWeights.__init__`. -/
inductive ActKind where
  | sigmoid
  | softmax
  | identity
deriving DecidableEq

/-- Loss kinds selectable by `NetworkWeights.__init__`. -/
inductive LossKind where
  | log_loss
  | mean_squared_error
deriving DecidableEq

/-- State of a `NetworkWeights` fitness object: the constructor arguments, the
loss and output activation selected at construction, and the forward cache
(`inputs_list`, `y_pred`, `weights`) refreshed by `evaluate`.  The hidden-layer
activation is the external collaborator function, elementwise, with a
derivative-mode flag as first argument. -/
structure NetworkWeights where
  X : Mat
  y_true : Mat
  node_list : List Nat
  activation : Bool → ℚ → ℚ
  bias : Bool
  is_classifier : Bool
  lr : ℚ
  loss : LossKind
  output_activation : ActKind
  inputs_list : List Mat
  y_pred : Mat
  weights : List Mat

/-- Source `NetworkWeights.__init__`: stores the data and hyperparameters and
selects the loss and output activation from `is_classifier` and the label
column count, once, at construction. -/
def NetworkWeights.init (X y : Mat) (node_list : List Nat)
    (activation : Bool → ℚ → ℚ) (bias is_classifier : Bool) (lr : ℚ) :
    NetworkWeights :=
  { X := X
    y_true := y
    node_list := node_list
    activation := activation
    bias := bias
    is_classifier := is_classifier
    lr := lr
    loss := if is_classifier then LossKind.log_loss else LossKind.mean_squared_error
    output_activation :=
      if is_classifier then
        (if numCols y = 1 then ActKind.sigmoid else ActKind.softmax)
      else ActKind.identity
    inputs_list := []
    y_pred := y
    weights := [] }

/-- Forward-pass loop of `NetworkWeights.evaluate`: record each layer's input,
multiply by the layer's weights, apply the hidden activation between layers
and the output activation on the final layer.  Returns the cached inputs list
and the prediction (the old `y_pred` if there are no layers). -/
def forwardLoop (act : ℚ → ℚ) (outAct : Mat → Mat) :
    Mat → List Mat → Mat → (List Mat × Mat)
  | _, [], yp => ([], yp)
  | inputs, [w], _ => ([inputs], outAct (matMul inputs w))
  | inputs, w :: w2 :: rest, yp =>
    let res := forwardLoop act outAct (mapMat act (matMul inputs w)) (w2 :: rest) yp
    (inputs :: res.1, res.2)

/-- Source `NetworkWeights.evaluate`: unflatten the state into weights,
optionally append the bias column of ones, run the forward pass, refresh the
cache and return the loss of the prediction.  The concrete output-activation
and loss functions are external collaborators, passed as interpretations of
the selected kinds. -/
def NetworkWeights.evaluate (outActImpl : ActKind → Mat → Mat)
    (lossImpl : LossKind → Mat → Mat → ℚ) (nw : NetworkWeights)
    (state : List ℚ) : Except String (NetworkWeights × ℚ) :=
  match unflatten_weights state nw.node_list with
  | Except.error e => Except.error e
  | Except.ok ws =>
    let inputs := if nw.bias then nw.X.map (fun r => r ++ [1]) else nw.X
    let res := forwardLoop (nw.activation false) (outActImpl nw.output_activation)
      inputs ws nw.y_pred
    Except.ok ({ nw with inputs_list := res.1, weights := ws, y_pred := res.2 },
      lossImpl nw.loss nw.y_true res.2)

/-- One iteration of the backward loop of `calculate_updates` at layer index
`i`: compute the error signal (from `y_pred` at the final layer, else from the
last appended delta), append it to the delta list, and append the update
`-1 * lr * transpose(inputs_list[i]) . delta`. -/
def calcStep (nw : NetworkWeights) (acc : List Mat × List Mat) (i : Nat) :
    List Mat × List Mat :=
  let n := nw.inputs_list.length
  let delta : Mat :=
    if i = n - 1 then matSub nw.y_pred nw.y_true
    else
      hadamard (matMul (acc.1.getLastD []) (transposeM (nw.weights.getD (i + 1) [])))
        (mapMat (nw.activation true) (nw.inputs_list.getD (i + 1) []))
  let upd := smulMat (-1 * nw.lr) (matMul (transposeM (nw.inputs_list.getD i [])) delta)
  (acc.1 ++ [delta], acc.2 ++ [upd])

/-- Source `NetworkWeights.calculate_updates`: walk the layers backwards from
the final one, accumulating deltas and updates by appending, and reverse the
updates list before returning. -/
def NetworkWeights.calculate_updates (nw : NetworkWeights) : List Mat :=
  ((((List.range nw.inputs_list.length).reverse).foldl (calcStep nw) ([], [])).2).reverse

/-- Error signal counted from the output layer, exactly as the claim states
it: `specDeltaAux nw k` is the delta of layer `(L - 1) - k` where `L` is the
number of layers; the output layer's delta is `y_pred - y_true` and each
hidden delta is `(delta of the next layer . transpose(weights of the next
layer))` elementwise-times the activation derivative at the next layer's
cached input. -/
def specDeltaAux (nw : NetworkWeights) : Nat → Mat
  | 0 => matSub nw.y_pred nw.y_true
  | Nat.succ k =>
    let i1 := nw.inputs_list.length - 1 - k
    hadamard (matMul (specDeltaAux nw k) (transposeM (nw.weights.getD i1 [])))
      (mapMat (nw.activation true) (nw.inputs_list.getD i1 []))

/-- Error signal of layer `i` in input-to-output indexing, per the claim. -/
def specDelta (nw : NetworkWeights) (i : Nat) : Mat :=
  specDeltaAux nw (nw.inputs_list.length - 1 - i)

/-- Claimed update for layer `i`:
`-learning_rate * transpose(cached_input_i) . delta_i`. -/
def specUpd (nw : NetworkWeights) (i : Nat) : Mat :=
  smulMat (-1 * nw.lr) (matMul (transposeM (nw.inputs_list.getD i [])) (specDelta nw i))

/-- The claimed result of `calculate_updates`: one update matrix per layer, in
input-to-output order. -/
def specUpdates (nw : NetworkWeights) : List Mat :=
  (List.range nw.inputs_list.length).map (specUpd nw)

/-- Deltas accumulated after the backward loop has processed layers
`L - 1, …, j` (appended in traversal order). -/
def dls (nw : NetworkWeights) (j : Nat) : List Mat :=
  (((List.range nw.inputs_list.length).drop j).reverse).map (specDelta nw)

/-- Updates accumulated after the backward loop has processed layers
`L - 1, …, j` (appended in traversal order). -/
def uls (nw : NetworkWeights) (j : Nat) : List Mat :=
  (((List.range nw.inputs_list.length).drop j).reverse).map (specUpd nw)

theorem getLastD_concat_mat (l : List Mat) (x d : Mat) :
    (l ++ [x]).getLastD d = x := by
  simp

theorem drop_range_cons (L j : Nat) (h : j < L) :
    (List.range L).drop j = j :: (List.range L).drop (j + 1) := by
  rw [List.drop_eq_getElem_cons (by simpa using h)]
  simp

theorem calcStep_post (nw : NetworkWeights) (j : Nat)
    (h : j < nw.inputs_list.length) :
    calcStep nw (dls nw (j + 1), uls nw (j + 1)) j = (dls nw j, uls nw j) := by
  have hdj : dls nw j = dls nw (j + 1) ++ [specDelta nw j] := by
    simp only [dls, drop_range_cons nw.inputs_list.length j h, List.reverse_cons,
      List.map_append, List.map_cons, List.map_nil]
  have huj : uls nw j = uls nw (j + 1) ++ [specUpd nw j] := by
    simp only [uls, drop_range_cons nw.inputs_list.length j h, List.reverse_cons,
      List.map_append, List.map_cons, List.map_nil]
  have hdelta : (if j = nw.inputs_list.length - 1 then matSub nw.y_pred nw.y_true
      else
        hadamard
          (matMul ((dls nw (j + 1)).getLastD []) (transposeM (nw.weights.getD (j + 1) [])))
          (mapMat (nw.activation true) (nw.inputs_list.getD (j + 1) []))) =
      specDelta nw j := by
    by_cases hj : j = nw.inputs_list.length - 1
    · rw [if_pos hj]
      have h0 : nw.inputs_list.length - 1 - j = 0 := by omega
      simp [specDelta, h0, specDeltaAux]
    · rw [if_neg hj]
      have hj1 : j + 1 < nw.inputs_list.length := by omega
      have hlast : (dls nw (j + 1)).getLastD [] = specDelta nw (j + 1) := by
        have hsplit : dls nw (j + 1) = dls nw (j + 2) ++ [specDelta nw (j + 1)] := by
          simp only [dls, drop_range_cons nw.inputs_list.length (j + 1) hj1,
            List.reverse_cons, List.map_append, List.map_cons, List.map_nil]
        rw [hsplit, getLastD_concat_mat]
      rw [hlast]
      have hk : nw.inputs_list.length - 1 - j = (nw.inputs_list.length - 2 - j) + 1 := by
        omega
      have hk2 : nw.inputs_list.length - 1 - (nw.inputs_list.length - 2 - j) = j + 1 := by
        omega
      have hk3 : nw.inputs_list.length - 1 - (j + 1) = nw.inputs_list.length - 2 - j := by
        omega
      show _ = specDelta nw j
      simp only [specDelta, hk, specDeltaAux, hk2, hk3]
  simp only [calcStep]
  rw [hdelta, ← hdj]
  show (dls nw j, uls nw (j + 1) ++ [specUpd nw j]) = (dls nw j, uls nw j)
  rw [← huj]

theorem calcFold_range (nw : NetworkWeights) :
    ∀ j, j ≤ nw.inputs_list.length →
      ((List.range j).reverse).foldl (calcStep nw) (dls nw j, uls nw j) =
        (dls nw 0, uls nw 0) := by
  intro j
  induction j with
  | zero => intro _; rfl
  | succ n ih =>
    intro h
    have hrev : (List.range (n + 1)).reverse = n :: (List.range n).reverse := by
      rw [List.range_succ, List.reverse_append]
      rfl
    rw [hrev]
    show List.foldl (calcStep nw) (calcStep nw (dls nw (n + 1), uls nw (n + 1)) n)
      ((List.range n).reverse) = _
    rw [calcStep_post nw n (by omega)]
    exact ih (by omega)

theorem calculate_updates_eq (nw : NetworkWeights) :
    nw.calculate_updates = specUpdates nw := by
  have h0 : dls nw nw.inputs_list.length = [] := by simp [dls]
  have h1 : uls nw nw.inputs_list.length = [] := by simp [uls]
  have hfold := calcFold_range nw nw.inputs_list.length le_rfl
  rw [h0, h1] at hfold
  show ((((List.range nw.inputs_list.length).reverse).foldl (calcStep nw)
    ([], [])).2).reverse = specUpdates nw
  rw [hfold]
  simp [uls, specUpdates, List.map_reverse]

theorem evaluate_preserves (outActImpl : ActKind → Mat → Mat)
    (lossImpl : LossKind → Mat → Mat → ℚ) (nw : NetworkWeights) (state : List ℚ)
    (res : NetworkWeights × ℚ)
    (h : NetworkWeights.evaluate outActImpl lossImpl nw state = Except.ok res) :
    res.1.output_activation = nw.output_activation ∧ res.1.loss = nw.loss ∧
    res.1.node_list = nw.node_list ∧ res.1.lr = nw.lr := by
  unfold NetworkWeights.evaluate at h
  cases hu : unflatten_weights state nw.node_list with
  | error e => rw [hu] at h; exact absurd h (by simp)
  | ok ws =>
    rw [hu] at h
    simp only at h
    have h2 := Except.ok.inj h
    rw [← h2]
    exact ⟨rfl, rfl, rfl, rfl⟩

/-- C2: Backpropagation reference definition.  For a forward cache produced by
`NetworkWeights.evaluate` on a state, `calculate_updates` returns one matrix
per layer in input-to-output order, equal layer by layer to
`-learning_rate * transpose(cached_input_i) . delta_i`, where the output-layer
error signal is `y_pred - y_true` and each hidden-layer error signal is
`(delta of the next layer . transpose(weights of the next layer))`
elementwise-times the activation derivative at the next layer's cached input;
the loop assembles the list backwards and reverses it before returning. -/
theorem calculate_updates_backprop (outActImpl : ActKind → Mat → Mat)
    (lossImpl : LossKind → Mat → Mat → ℚ) (nw : NetworkWeights) (state : List ℚ)
    (res : NetworkWeights × ℚ)
    (h : NetworkWeights.evaluate outActImpl lossImpl nw state = Except.ok res) :
    res.1.calculate_updates = specUpdates res.1 ∧
    res.1.calculate_updates.length = res.1.inputs_list.length :=
  ⟨calculate_updates_eq res.1, by
    rw [calculate_updates_eq res.1]
    simp [specUpdates]⟩

/-- Trivial hidden-activation collaborator used in concrete witnesses. -/
def actId : Bool → ℚ → ℚ := fun _ x => x

/-- Trivial output-activation interpretation used in concrete witnesses. -/
def outId : ActKind → Mat → Mat := fun _ m => m

/-- Trivial loss interpretation used in concrete witnesses. -/
def lossZero : LossKind → Mat → Mat → ℚ := fun _ _ _ => 0

/-- Concrete one-layer network used by witnesses. -/
def nwC2 : NetworkWeights := NetworkWeights.init [[1]] [[0]] [1, 1] actId false true 1

/-- The forward cache `NetworkWeights.evaluate` produces on `nwC2` at state
`[1]`. -/
def nwC2res : NetworkWeights :=
  { nwC2 with inputs_list := [[[1]]], weights := [[[1]]], y_pred := [[1]] }

/-- Witness for C2: a concrete evaluation of the one-layer network `nwC2` at
state `[1]`, on which the backward loop agrees with the claimed per-layer
formula. -/
theorem calculate_updates_backprop_wit :
    (NetworkWeights.evaluate outId lossZero nwC2 [1] = Except.ok (nwC2res, 0)) ∧
    nwC2res.calculate_updates = specUpdates nwC2res := by
  have h : NetworkWeights.evaluate outId lossZero nwC2 [1] = Except.ok (nwC2res, 0) := by
    simp [NetworkWeights.evaluate, nwC2, nwC2res, NetworkWeights.init, unflatten_weights,
      unflattenGo, np_reshape, chunkRows, forwardLoop, matMul, transposeM, numCols,
      dotRow, outId, lossZero, actId, mapMat, List.range_succ]
  exact ⟨h, (calculate_updates_backprop outId lossZero nwC2 [1] (nwC2res, 0) h).1⟩

/-- C5: Output-activation selection.  Constructing `NetworkWeights` as a
classifier with a one-column label matrix selects sigmoid and log-loss; a
classifier with more than one label column selects softmax and log-loss; a
regressor selects identity and mean squared error regardless of label width;
and the selection made at construction is never changed by `evaluate`. -/
theorem output_activation_selection (X y : Mat) (node_list : List Nat)
    (act : Bool → ℚ → ℚ) (bias : Bool) (lr : ℚ) (cls : Bool) :
    (numCols y = 1 →
      (NetworkWeights.init X y node_list act bias true lr).output_activation =
          ActKind.sigmoid ∧
        (NetworkWeights.init X y node_list act bias true lr).loss = LossKind.log_loss) ∧
    (1 < numCols y →
      (NetworkWeights.init X y node_list act bias true lr).output_activation =
          ActKind.softmax ∧
        (NetworkWeights.init X y node_list act bias true lr).loss = LossKind.log_loss) ∧
    ((NetworkWeights.init X y node_list act bias false lr).output_activation =
        ActKind.identity ∧
      (NetworkWeights.init X y node_list act bias false lr).loss =
        LossKind.mean_squared_error) ∧
    (∀ (outActImpl : ActKind → Mat → Mat) (lossImpl : LossKind → Mat → Mat → ℚ)
        (state : List ℚ) (res : NetworkWeights × ℚ),
      NetworkWeights.evaluate outActImpl lossImpl
          (NetworkWeights.init X y node_list act bias cls lr) state = Except.ok res →
      res.1.output_activation =
          (NetworkWeights.init X y node_list act bias cls lr).output_activation ∧
        res.1.loss = (NetworkWeights.init X y node_list act bias cls lr).loss) := by
  refine ⟨?_, ?_, ?_, ?_⟩
  · intro h1
    simp [NetworkWeights.init, h1]
  · intro h2
    have hne : numCols y ≠ 1 := by omega
    simp [NetworkWeights.init, hne]
  · simp [NetworkWeights.init]
  · intro outActImpl lossImpl state res h
    have hp := evaluate_preserves outActImpl lossImpl _ state res h
    exact ⟨hp.1, hp.2.1⟩

/-- Witness for C5: the three selection cases at concrete label matrices, and
preservation of the selection across a concrete `evaluate` call. -/
theorem output_activation_selection_wit :
    (NetworkWeights.init [[1]] [[0]] [1, 1] actId false true 1).output_activation =
        ActKind.sigmoid ∧
      (NetworkWeights.init [[1]] [[0, 0]] [1, 2] actId false true 1).output_activation =
        ActKind.softmax ∧
      (NetworkWeights.init [[1]] [[0]] [1, 1] actId false false 1).output_activation =
        ActKind.identity ∧
      nwC2res.output_activation = nwC2.output_activation := by
  have h : NetworkWeights.evaluate outId lossZero
      (NetworkWeights.init [[1]] [[0]] [1, 1] actId false true 1) [1] =
      Except.ok (nwC2res, 0) := by
    simp [NetworkWeights.evaluate, nwC2, nwC2res, NetworkWeights.init, unflatten_weights,
      unflattenGo, np_reshape, chunkRows, forwardLoop, matMul, transposeM, numCols,
      dotRow, outId, lossZero, actId, mapMat, List.range_succ]
  exact ⟨((output_activation_selection [[1]] [[0]] [1, 1] actId false 1 true).1 rfl).1,
    ((output_activation_selection [[1]] [[0, 0]] [1, 2] actId false 1 true).2.1
        (by decide)).1,
    ((output_activation_selection [[1]] [[0]] [1, 1] actId false 1 false).2.2.1).1,
    ((output_activation_selection [[1]] [[0]] [1, 1] actId false 1 true).2.2.2
        outId lossZero [1] (nwC2res, 0) h).1⟩

/-- Modelled from the spec: the generic optimization problem adapter
(`ContinuousOpt` from `opt_probs`) is imported by the source file, not defined
in it.  Per the spec's data model it holds the current weight vector, a cached
fitness value, and a maximize/minimize sign (plus or minus one) that lets the single
always-maximize optimizer core support both directions by negating the
underlying loss internally.  `fitness_fn` is the underlying evaluator's loss
at a state and `next` is the composition of `calculate_updates` and
`update_state` (add the update vector and clip elementwise), both consumed
by `gradient_descent` only through this interface. -/
structure ContinuousOpt (σ : Type) where
  sign : Bool
  fitness_fn : σ → ℚ
  next : σ → σ

/-- The maximize/minimize sign: `1` for maximize, `-1` for minimize. -/
def ContinuousOpt.get_maximize {σ : Type} (p : ContinuousOpt σ) : ℚ :=
  if p.sign then 1 else -1

/-- Modelled from the spec: evaluating a candidate's fitness negates the
underlying loss internally according to the sign, so the optimizer core can
always maximize.  The cached fitness of the current state always equals
`eval_fitness` at that state. -/
def ContinuousOpt.eval_fitness {σ : Type} (p : ContinuousOpt σ) (s : σ) : ℚ :=
  p.get_maximize * p.fitness_fn s

/-- State of the `gradient_descent` while loop: current state, the two
counters, and the best state/fitness seen. -/
structure GDState (σ : Type) where
  cur : σ
  attempts : Nat
  iters : Nat
  best_state : σ
  best_fitness : ℚ

/-- Initialization of `gradient_descent`: zero counters, best state is the
initial state and `best_fitness = get_maximize() * get_fitness()`. -/
def gdInit {σ : Type} (p : ContinuousOpt σ) (init_state : σ) : GDState σ :=
  { cur := init_state
    attempts := 0
    iters := 0
    best_state := init_state
    best_fitness := p.get_maximize * p.eval_fitness init_state }

/-- One iteration of the `gradient_descent` loop body: advance to the next
candidate, reset or bump `attempts` on raw-fitness comparison with the current
cached fitness, update the best pair on sign-adjusted comparison, and advance
the current state unconditionally. -/
def gdStep {σ : Type} (p : ContinuousOpt σ) (st : GDState σ) : GDState σ :=
  let next_state := p.next st.cur
  let next_fitness := p.eval_fitness next_state
  { cur := next_state
    iters := st.iters + 1
    attempts := if next_fitness > p.eval_fitness st.cur then 0 else st.attempts + 1
    best_state :=
      if next_fitness > p.get_maximize * st.best_fitness then next_state else st.best_state
    best_fitness :=
      if next_fitness > p.get_maximize * st.best_fitness then p.get_maximize * next_fitness
      else st.best_fitness }

/-- The while loop of `gradient_descent`, with guard
`attempts < max_attempts ∧ iters < max_iters`.  The fuel argument is the
remaining iteration budget `max_iters - iters`; since `iters` increases by
exactly one per pass, the fuel reaches zero only when the guard is already
false, so it never cuts the loop short. -/
def gdRunAux {σ : Type} (p : ContinuousOpt σ) (max_attempts max_iters : Nat) :
    Nat → GDState σ → GDState σ
  | 0, st => st
  | Nat.succ fuel, st =>
    if st.attempts < max_attempts ∧ st.iters < max_iters then
      gdRunAux p max_attempts max_iters fuel (gdStep p st)
    else st

/-- The `gradient_descent` while loop from an arbitrary loop state. -/
def gdRun {σ : Type} (p : ContinuousOpt σ) (max_attempts max_iters : Nat)
    (st : GDState σ) : GDState σ :=
  gdRunAux p max_attempts max_iters (max_iters - st.iters) st

/-- Source `gradient_descent`: initialize from the given state, run the loop,
return the best state and best fitness. -/
def gradient_descent {σ : Type} (p : ContinuousOpt σ) (max_attempts max_iters : Nat)
    (init_state : σ) : σ × ℚ :=
  let final := gdRun p max_attempts max_iters (gdInit p init_state)
  (final.best_state, final.best_fitness)

theorem get_maximize_mul_self {σ : Type} (p : ContinuousOpt σ) (x : ℚ) :
    p.get_maximize * (p.get_maximize * x) = x := by
  cases hs : p.sign <;> simp [ContinuousOpt.get_maximize, hs]

theorem gdStep_iters {σ : Type} (p : ContinuousOpt σ) (st : GDState σ) :
    (gdStep p st).iters = st.iters + 1 := rfl

theorem gdStep_attempts_cases {σ : Type} (p : ContinuousOpt σ) (st : GDState σ) :
    (gdStep p st).attempts = 0 ∨ (gdStep p st).attempts = st.attempts + 1 := by
  simp only [gdStep]
  by_cases hc : p.eval_fitness (p.next st.cur) > p.eval_fitness st.cur
  · left; simp [hc]
  · right; simp [hc]

theorem gdRunAux_stop {σ : Type} (p : ContinuousOpt σ) (maxA maxI fuel : Nat)
    (st : GDState σ) (h : ¬(st.attempts < maxA ∧ st.iters < maxI)) :
    gdRunAux p maxA maxI fuel st = st := by
  cases fuel with
  | zero => rfl
  | succ f => simp [gdRunAux, h]

theorem gdStep_best_userfacing {σ : Type} (p : ContinuousOpt σ) (st : GDState σ)
    (h : st.best_fitness = p.fitness_fn st.best_state) :
    (gdStep p st).best_fitness = p.fitness_fn (gdStep p st).best_state := by
  simp only [gdStep]
  by_cases hc : p.eval_fitness (p.next st.cur) > p.get_maximize * st.best_fitness
  · simp only [hc, if_pos]
    show p.get_maximize * p.eval_fitness (p.next st.cur) = p.fitness_fn (p.next st.cur)
    simp [ContinuousOpt.eval_fitness, get_maximize_mul_self]
  · simp only [hc, if_neg, ite_false]
    exact h

theorem gdRunAux_best_userfacing {σ : Type} (p : ContinuousOpt σ) (maxA maxI : Nat) :
    ∀ (fuel : Nat) (st : GDState σ), st.best_fitness = p.fitness_fn st.best_state →
      (gdRunAux p maxA maxI fuel st).best_fitness =
        p.fitness_fn (gdRunAux p maxA maxI fuel st).best_state := by
  intro fuel
  induction fuel with
  | zero => intro st h; exact h
  | succ f ih =>
    intro st h
    by_cases hg : st.attempts < maxA ∧ st.iters < maxI
    · simp only [gdRunAux, if_pos hg]
      exact ih (gdStep p st) (gdStep_best_userfacing p st h)
    · simp only [gdRunAux, if_neg hg]
      exact h

theorem gd_best_fitness_userfacing {σ : Type} (p : ContinuousOpt σ)
    (maxA maxI : Nat) (s0 : σ) :
    (gradient_descent p maxA maxI s0).2 =
      p.fitness_fn (gradient_descent p maxA maxI s0).1 := by
  have hinit : (gdInit p s0).best_fitness = p.fitness_fn (gdInit p s0).best_state := by
    simp [gdInit, ContinuousOpt.eval_fitness, get_maximize_mul_self]
  exact gdRunAux_best_userfacing p maxA maxI (maxI - (gdInit p s0).iters) (gdInit p s0) hinit

/-- Concrete minimize-mode adapter with constant loss 5, exhibiting the return
convention of `gradient_descent`. -/
def pC3 : ContinuousOpt ℚ :=
  { sign := false, fitness_fn := fun _ => 5, next := fun s => s }

/-- C3 counterexample: on the concrete minimize-mode problem `pC3`,
`gradient_descent` returns best fitness `5`, which is the user-facing loss of
the best state, not the sign-adjusted optimizer-native value `-5`; so the
returned value is not expressed in the optimizer-native convention. -/
theorem gradient_descent_not_native :
    (gradient_descent pC3 1 1 0).2 = 5 ∧
    pC3.get_maximize * pC3.fitness_fn ((gradient_descent pC3 1 1 0).1) = -5 ∧
    ¬((5 : ℚ) = -5) := by
  refine ⟨?_, ?_, by norm_num⟩
  · norm_num [gradient_descent, gdRun, gdRunAux, gdInit, gdStep, pC3,
      ContinuousOpt.eval_fitness, ContinuousOpt.get_maximize]
  · norm_num [gradient_descent, pC3, ContinuousOpt.get_maximize]

/-- C6: Early stopping.  For every problem adapter, running the loop with
`max_attempts = 1` when the first candidate's fitness does not improve on the
current fitness halts after exactly one iteration, for every
`max_iters ≥ 1`. -/
theorem gd_early_stopping {σ : Type} (p : ContinuousOpt σ) (s0 : σ) (maxI : Nat)
    (h1 : 1 ≤ maxI)
    (h2 : p.eval_fitness (p.next s0) ≤ p.eval_fitness s0) :
    gdRun p 1 maxI (gdInit p s0) = gdStep p (gdInit p s0) ∧
    (gdRun p 1 maxI (gdInit p s0)).iters = 1 := by
  have hatt : (gdStep p (gdInit p s0)).attempts = 1 := by
    simp only [gdStep, gdInit]
    rw [if_neg (not_lt.mpr h2)]
  have hit : (gdStep p (gdInit p s0)).iters = 1 := rfl
  have hmain : gdRun p 1 maxI (gdInit p s0) = gdStep p (gdInit p s0) := by
    unfold gdRun
    have hfuel : maxI - (gdInit p s0).iters = maxI := rfl
    rw [hfuel]
    cases maxI with
    | zero => omega
    | succ m =>
      have hguard : (gdInit p s0).attempts < 1 ∧ (gdInit p s0).iters < Nat.succ m := by
        constructor
        · show (0 : Nat) < 1; omega
        · show (0 : Nat) < Nat.succ m; omega
      show (if (gdInit p s0).attempts < 1 ∧ (gdInit p s0).iters < Nat.succ m then
          gdRunAux p 1 (Nat.succ m) m (gdStep p (gdInit p s0))
        else gdInit p s0) = gdStep p (gdInit p s0)
      rw [if_pos hguard]
      apply gdRunAux_stop
      intro hcontra
      rw [hatt] at hcontra
      exact absurd hcontra.1 (by omega)
  exact ⟨hmain, by rw [hmain, hit]⟩

/-- Concrete adapter for the C6 witness: the next state has equal fitness, so
the first step does not improve. -/
def pW6 : ContinuousOpt ℚ :=
  { sign := true, fitness_fn := fun _ => 0, next := fun s => s }

/-- Witness for C6 on the concrete adapter `pW6` with `max_iters = 5`. -/
theorem gd_early_stopping_wit :
    (1 ≤ 5) ∧ (pW6.eval_fitness (pW6.next 0) ≤ pW6.eval_fitness 0) ∧
    (gdRun pW6 1 5 (gdInit pW6 0)).iters = 1 :=
  ⟨by norm_num, le_refl _, (gd_early_stopping pW6 0 5 (by norm_num) (le_refl _)).2⟩

/-- C7: Monotonic best fitness.  For every adapter, the sign-adjusted quantity
`get_maximize() * best_fitness` never decreases across a loop step nor across
any run of the loop, and `best_fitness` changes only when the sign-adjusted
value strictly improves. -/
theorem gd_best_monotone {σ : Type} (p : ContinuousOpt σ) :
    (∀ st : GDState σ,
      p.get_maximize * st.best_fitness ≤ p.get_maximize * (gdStep p st).best_fitness) ∧
    (∀ st : GDState σ, (gdStep p st).best_fitness = st.best_fitness ∨
      p.get_maximize * st.best_fitness < p.get_maximize * (gdStep p st).best_fitness) ∧
    (∀ (maxA maxI fuel : Nat) (st : GDState σ),
      p.get_maximize * st.best_fitness ≤
        p.get_maximize * (gdRunAux p maxA maxI fuel st).best_fitness) := by
  have hstep : ∀ st : GDState σ, (gdStep p st).best_fitness = st.best_fitness ∨
      p.get_maximize * st.best_fitness < p.get_maximize * (gdStep p st).best_fitness := by
    intro st
    simp only [gdStep]
    by_cases hc : p.eval_fitness (p.next st.cur) > p.get_maximize * st.best_fitness
    · right
      simp only [hc, if_pos]
      rw [get_maximize_mul_self]
      exact hc
    · left
      simp only [hc, ite_false]
  have hle : ∀ st : GDState σ,
      p.get_maximize * st.best_fitness ≤ p.get_maximize * (gdStep p st).best_fitness := by
    intro st
    rcases hstep st with h | h
    · rw [h]
    · exact le_of_lt h
  refine ⟨hle, hstep, ?_⟩
  intro maxA maxI fuel
  induction fuel with
  | zero => intro st; exact le_refl _
  | succ f ih =>
    intro st
    by_cases hg : st.attempts < maxA ∧ st.iters < maxI
    · simp only [gdRunAux, if_pos hg]
      exact le_trans (hle st) (ih (gdStep p st))
    · simp only [gdRunAux, if_neg hg]
      exact le_refl _

theorem gdRunAux_post {σ : Type} (p : ContinuousOpt σ) (maxA maxI : Nat) :
    ∀ (fuel : Nat) (st : GDState σ), st.attempts ≤ maxA → st.iters ≤ maxI →
      maxI ≤ st.iters + fuel →
      (gdRunAux p maxA maxI fuel st).iters ≤ maxI ∧
        ((gdRunAux p maxA maxI fuel st).attempts = maxA ∨
          (gdRunAux p maxA maxI fuel st).iters = maxI) := by
  intro fuel
  induction fuel with
  | zero =>
    intro st h1 h2 h3
    simp only [gdRunAux]
    exact ⟨h2, Or.inr (by omega)⟩
  | succ f ih =>
    intro st h1 h2 h3
    by_cases hg : st.attempts < maxA ∧ st.iters < maxI
    · simp only [gdRunAux, if_pos hg]
      apply ih
      · rcases gdStep_attempts_cases p st with h | h <;> rw [h] <;> omega
      · rw [gdStep_iters]; omega
      · rw [gdStep_iters]; omega
    · simp only [gdRunAux, if_neg hg]
      exact ⟨h2, by omega⟩

/-- C9: Termination and loop-count bound.  For every adapter, every
`max_attempts` and every finite `max_iters`, the loop terminates with
`iters ≤ max_iters`, and at the final state either `attempts = max_attempts`
(stalled) or `iters = max_iters` (budget exhausted), whichever came first. -/
theorem gd_terminates {σ : Type} (p : ContinuousOpt σ) (maxA maxI : Nat) (s0 : σ) :
    (gdRun p maxA maxI (gdInit p s0)).iters ≤ maxI ∧
    ((gdRun p maxA maxI (gdInit p s0)).attempts = maxA ∨
      (gdRun p maxA maxI (gdInit p s0)).iters = maxI) := by
  apply gdRunAux_post p maxA maxI (maxI - (gdInit p s0).iters) (gdInit p s0)
  · show (0 : Nat) ≤ maxA; omega
  · show (0 : Nat) ≤ maxI; omega
  · show maxI ≤ 0 + (maxI - 0); omega

theorem gdRunAux_full {σ : Type} (p : ContinuousOpt σ) (maxI : Nat) :
    ∀ (fuel : Nat) (st : GDState σ), st.attempts ≤ st.iters → st.iters ≤ maxI →
      maxI ≤ st.iters + fuel →
      (gdRunAux p maxI maxI fuel st).iters = maxI := by
  intro fuel
  induction fuel with
  | zero =>
    intro st h1 h2 h3
    simp only [gdRunAux]
    omega
  | succ f ih =>
    intro st h1 h2 h3
    by_cases hg : st.attempts < maxI ∧ st.iters < maxI
    · simp only [gdRunAux, if_pos hg]
      apply ih
      · rcases gdStep_attempts_cases p st with h | h <;> rw [h, gdStep_iters] <;> omega
      · rw [gdStep_iters]; omega
      · rw [gdStep_iters]; omega
    · simp only [gdRunAux, if_neg hg]
      omega

theorem gdRun_full_budget {σ : Type} (p : ContinuousOpt σ) (maxI : Nat) (s0 : σ) :
    (gdRun p maxI maxI (gdInit p s0)).iters = maxI := by
  apply gdRunAux_full p maxI (maxI - (gdInit p s0).iters) (gdInit p s0)
  · show (0 : Nat) ≤ 0; omega
  · show (0 : Nat) ≤ maxI; omega
  · show maxI ≤ 0 + (maxI - 0); omega

/-- The four algorithm names accepted by the facade; the first three are
external collaborators, the last is the in-file `gradient_descent`. -/
inductive Algo where
  | random_hill_climb
  | simulated_annealing
  | genetic_alg
  | gradient_descent
deriving DecidableEq

/-- A label argument to `fit`: either a flat vector (numpy 1D) or a matrix. -/
inductive YIn where
  | vec : List ℚ → YIn
  | mat : Mat → YIn

/-- The label coercion at the top of `fit`: a flat label vector is reshaped
into a single-column matrix, a matrix is kept as is. -/
def reshapeY : YIn → Mat
  | YIn.vec v => v.map (fun x => [x])
  | YIn.mat m => m

/-- Elementwise clip of a vector into the interval from `-cmax` to `cmax`. -/
def clipV (cmax : ℚ) (v : List ℚ) : List ℚ :=
  v.map (fun x => min (max x (-cmax)) cmax)

/-- Elementwise sum of two vectors of equal length. -/
def addV (a b : List ℚ) : List ℚ := List.zipWith (fun x y => x + y) a b

/-- Modelled from the spec: the `ContinuousOpt` problem that `fit` builds
around the `NetworkWeights` evaluator (`maximize=False`, bounds given by
`clip_max`).  Its fitness delegates to the evaluator; its next-candidate
function refreshes the forward cache by evaluating the current state, then
adds the flattened `calculate_updates` output and clips elementwise into the
interval from `-clip_max` to `clip_max` (`update_state`). -/
def buildProblem (outActImpl : ActKind → Mat → Mat)
    (lossImpl : LossKind → Mat → Mat → ℚ) (nw : NetworkWeights) (clip_max : ℚ) :
    ContinuousOpt (List ℚ) :=
  { sign := false
    fitness_fn := fun s =>
      match NetworkWeights.evaluate outActImpl lossImpl nw s with
      | Except.ok r => r.2
      | Except.error _ => 0
    next := fun s =>
      match NetworkWeights.evaluate outActImpl lossImpl nw s with
      | Except.ok r => clipV clip_max (addV s (flatten_weights r.1.calculate_updates))
      | Except.error _ => s }

/-- State of a `NeuralNetwork` facade object: the constructor arguments
(with the validated activation function and algorithm), and the fitted state
(`node_list`, `fitted_weights`, `loss`, `output_activation`), which is empty
until `fit` succeeds. -/
structure NeuralNetwork where
  hidden_nodes : List Nat
  max_iters : Nat
  bias : Bool
  is_classifier : Bool
  lr : ℚ
  early_stopping : Bool
  clip_max : ℚ
  schedule : Nat → ℚ
  pop_size : Nat
  mutation_prob : ℚ
  activation : Bool → ℚ → ℚ
  algorithm : Algo
  max_attempts : Nat
  node_list : List Nat
  fitted_weights : List ℚ
  loss : Option ℚ
  output_activation : Option ActKind

/-- Source `NeuralNetwork.__init__`: validate the activation name against the
dictionary of the four external activation functions (passed here as
parameters) and the algorithm name against the closed list, failing fast on
an unrecognized value; store `max_attempts` as given when `early_stopping` is
set, else as `max_iters`; initialize the fitted state empty. -/
def NeuralNetwork.init (identityF reluF sigmoidF tanhF : Bool → ℚ → ℚ)
    (hidden_nodes : List Nat) (activation algorithm : String) (max_iters : Nat)
    (bias is_classifier : Bool) (lr : ℚ) (early_stopping : Bool) (clip_max : ℚ)
    (schedule : Nat → ℚ) (pop_size : Nat) (mutation_prob : ℚ) (max_attempts : Nat) :
    Except String NeuralNetwork :=
  match (if activation = "identity" then some identityF
    else if activation = "relu" then some reluF
    else if activation = "sigmoid" then some sigmoidF
    else if activation = "tanh" then some tanhF
    else none) with
  | none => Except.error "Activation function must be one of identity, relu, sigmoid or tanh."
  | some actF =>
    match (if algorithm = "random_hill_climb" then some Algo.random_hill_climb
      else if algorithm = "simulated_annealing" then some Algo.simulated_annealing
      else if algorithm = "genetic_alg" then some Algo.genetic_alg
      else if algorithm = "gradient_descent" then some Algo.gradient_descent
      else none) with
    | none => Except.error "Algorithm must be one of random_hill_climb, simulated_annealing, genetic_alg, gradient_descent."
    | some alg =>
      Except.ok
        { hidden_nodes := hidden_nodes
          max_iters := max_iters
          bias := bias
          is_classifier := is_classifier
          lr := lr
          early_stopping := early_stopping
          clip_max := clip_max
          schedule := schedule
          pop_size := pop_size
          mutation_prob := mutation_prob
          activation := actF
          algorithm := alg
          max_attempts := if early_stopping then max_attempts else max_iters
          node_list := []
          fitted_weights := []
          loss := none
          output_activation := none }

/-- Topology derived by `fit`: the (possibly bias-augmented) input width,
the hidden widths, then the label width. -/
def fitNodeList (nn : NeuralNetwork) (X y : Mat) : List Nat :=
  (numCols X + (if nn.bias then 1 else 0)) :: (nn.hidden_nodes ++ [numCols y])

/-- Source `NeuralNetwork.fit`: coerce the labels to a matrix, validate the
row counts (raising the fatal mismatch error before any state mutation),
derive the topology, build the evaluator and the problem, dispatch to the
selected algorithm and store the returned weights, loss and the selected
output activation.  The three randomized algorithms are external
collaborators passed as functions; `rand` stands for the uniformly-random
initial vector drawn when the caller passes no `init_weights`.  The returned
pair is the post-call object state and the raised error message, if any. -/
def NeuralNetwork.fit
    (rhc : ContinuousOpt (List ℚ) → Nat → Nat → List ℚ → (List ℚ × ℚ))
    (sa : ContinuousOpt (List ℚ) → (Nat → ℚ) → Nat → Nat → List ℚ → (List ℚ × ℚ))
    (ga : ContinuousOpt (List ℚ) → Nat → ℚ → Nat → Nat → (List ℚ × ℚ))
    (outActImpl : ActKind → Mat → Mat) (lossImpl : LossKind → Mat → Mat → ℚ)
    (nn : NeuralNetwork) (X : Mat) (yin : YIn) (init_weights : Option (List ℚ))
    (rand : List ℚ) : NeuralNetwork × Option String :=
  let y := reshapeY yin
  if X.length = y.length then
    let node_list := fitNodeList nn X y
    let fitness := NetworkWeights.init X y node_list nn.activation nn.bias
      nn.is_classifier nn.lr
    let problem := buildProblem outActImpl lossImpl fitness nn.clip_max
    let iw := init_weights.getD rand
    let res :=
      match nn.algorithm with
      | Algo.random_hill_climb => rhc problem nn.max_attempts nn.max_iters iw
      | Algo.simulated_annealing => sa problem nn.schedule nn.max_attempts nn.max_iters iw
      | Algo.genetic_alg => ga problem nn.pop_size nn.mutation_prob nn.max_attempts nn.max_iters
      | Algo.gradient_descent => gradient_descent problem nn.max_attempts nn.max_iters iw
    ({ nn with
        node_list := node_list
        fitted_weights := res.1
        loss := some res.2
        output_activation := some fitness.output_activation }, none)
  else (nn, some "The length of X and y must be equal.")

/-- C8: Fit row-mismatch atomicity.  Whenever the feature matrix and the
(reshaped) label matrix have different row counts, `fit` raises the fatal
row-count-mismatch error and every piece of fitted state (`node_list`,
`fitted_weights`, `loss`, `output_activation`) keeps its pre-call value. -/
theorem fit_row_mismatch
    (rhc : ContinuousOpt (List ℚ) → Nat → Nat → List ℚ → (List ℚ × ℚ))
    (sa : ContinuousOpt (List ℚ) → (Nat → ℚ) → Nat → Nat → List ℚ → (List ℚ × ℚ))
    (ga : ContinuousOpt (List ℚ) → Nat → ℚ → Nat → Nat → (List ℚ × ℚ))
    (outActImpl : ActKind → Mat → Mat) (lossImpl : LossKind → Mat → Mat → ℚ)
    (nn : NeuralNetwork) (X : Mat) (yin : YIn) (init_weights : Option (List ℚ))
    (rand : List ℚ) (h : X.length ≠ (reshapeY yin).length) :
    (NeuralNetwork.fit rhc sa ga outActImpl lossImpl nn X yin init_weights
        rand).1.node_list = nn.node_list ∧
    (NeuralNetwork.fit rhc sa ga outActImpl lossImpl nn X yin init_weights
        rand).1.fitted_weights = nn.fitted_weights ∧
    (NeuralNetwork.fit rhc sa ga outActImpl lossImpl nn X yin init_weights
        rand).1.loss = nn.loss ∧
    (NeuralNetwork.fit rhc sa ga outActImpl lossImpl nn X yin init_weights
        rand).1.output_activation = nn.output_activation ∧
    (NeuralNetwork.fit rhc sa ga outActImpl lossImpl nn X yin init_weights
        rand).2 = some "The length of X and y must be equal." := by
  have hfit : NeuralNetwork.fit rhc sa ga outActImpl lossImpl nn X yin init_weights
      rand = (nn, some "The length of X and y must be equal.") := by
    simp only [NeuralNetwork.fit]
    rw [if_neg h]
  rw [hfit]
  exact ⟨rfl, rfl, rfl, rfl, rfl⟩

/-- External randomized algorithms instantiated trivially for witnesses. -/
def rhcW : ContinuousOpt (List ℚ) → Nat → Nat → List ℚ → (List ℚ × ℚ) :=
  fun _ _ _ s => (s, 0)

/-- Trivial simulated-annealing collaborator for witnesses. -/
def saW : ContinuousOpt (List ℚ) → (Nat → ℚ) → Nat → Nat → List ℚ → (List ℚ × ℚ) :=
  fun _ _ _ _ s => (s, 0)

/-- Trivial genetic-algorithm collaborator for witnesses. -/
def gaW : ContinuousOpt (List ℚ) → Nat → ℚ → Nat → Nat → (List ℚ × ℚ) :=
  fun _ _ _ _ _ => ([], 0)

/-- A concrete facade object configured for gradient descent. -/
def nnW8 : NeuralNetwork :=
  { hidden_nodes := []
    max_iters := 1
    bias := false
    is_classifier := true
    lr := 1
    early_stopping := false
    clip_max := 1
    schedule := fun _ => 1
    pop_size := 1
    mutation_prob := 1
    activation := actId
    algorithm := Algo.gradient_descent
    max_attempts := 1
    node_list := []
    fitted_weights := []
    loss := none
    output_activation := none }

/-- Witness for C8: fitting a two-row feature matrix against a one-row label
vector raises the mismatch error and leaves the fitted state empty. -/
theorem fit_row_mismatch_wit :
    (List.length [[(1 : ℚ)], [2]] ≠ (reshapeY (YIn.vec [0])).length) ∧
    (NeuralNetwork.fit rhcW saW gaW outId lossZero nnW8 [[(1 : ℚ)], [2]]
        (YIn.vec [0]) none []).2 = some "The length of X and y must be equal." ∧
    (NeuralNetwork.fit rhcW saW gaW outId lossZero nnW8 [[(1 : ℚ)], [2]]
        (YIn.vec [0]) none []).1.loss = nnW8.loss :=
  ⟨by decide,
    (fit_row_mismatch rhcW saW gaW outId lossZero nnW8 [[(1 : ℚ)], [2]]
        (YIn.vec [0]) none [] (by decide)).2.2.2.2,
    (fit_row_mismatch rhcW saW gaW outId lossZero nnW8 [[(1 : ℚ)], [2]]
        (YIn.vec [0]) none [] (by decide)).2.2.1⟩

/-- C3 (amended): `gradient_descent` returns `best_fitness` already converted
to the user-facing convention — it equals the underlying loss (`fitness_fn`)
of the returned best state, that is `get_maximize()` times the
optimizer-native sign-adjusted value — and on the gradient-descent path the
facade stores the returned value unchanged as `self.loss`, with no
re-adjustment. -/
theorem gd_return_convention :
    (∀ (σ : Type) (p : ContinuousOpt σ) (maxA maxI : Nat) (s0 : σ),
      (gradient_descent p maxA maxI s0).2 =
        p.fitness_fn (gradient_descent p maxA maxI s0).1) ∧
    (∀ (rhc : ContinuousOpt (List ℚ) → Nat → Nat → List ℚ → (List ℚ × ℚ))
        (sa : ContinuousOpt (List ℚ) → (Nat → ℚ) → Nat → Nat → List ℚ → (List ℚ × ℚ))
        (ga : ContinuousOpt (List ℚ) → Nat → ℚ → Nat → Nat → (List ℚ × ℚ))
        (outActImpl : ActKind → Mat → Mat) (lossImpl : LossKind → Mat → Mat → ℚ)
        (nn : NeuralNetwork) (X : Mat) (yin : YIn) (init_weights : Option (List ℚ))
        (rand : List ℚ),
      nn.algorithm = Algo.gradient_descent →
      X.length = (reshapeY yin).length →
      (NeuralNetwork.fit rhc sa ga outActImpl lossImpl nn X yin init_weights
          rand).1.loss =
        some ((gradient_descent
          (buildProblem outActImpl lossImpl
            (NetworkWeights.init X (reshapeY yin)
              (fitNodeList nn X (reshapeY yin)) nn.activation nn.bias
              nn.is_classifier nn.lr) nn.clip_max)
          nn.max_attempts nn.max_iters (init_weights.getD rand)).2)) := by
  constructor
  · intro σ p maxA maxI s0
    exact gd_best_fitness_userfacing p maxA maxI s0
  · intro rhc sa ga outActImpl lossImpl nn X yin init_weights rand halg hlen
    simp only [NeuralNetwork.fit]
    rw [if_pos hlen, halg]

/-- Witness for C3's amended theorem: the loop-level convention at the
concrete minimize-mode problem `pC3` and the facade path at a concrete
one-observation fit. -/
theorem gd_return_convention_wit :
    ((gradient_descent pC3 1 1 0).2 = pC3.fitness_fn (gradient_descent pC3 1 1 0).1) ∧
    (nnW8.algorithm = Algo.gradient_descent) ∧
    (List.length [[(1 : ℚ)]] = (reshapeY (YIn.vec [0])).length) ∧
    ((NeuralNetwork.fit rhcW saW gaW outId lossZero nnW8 [[(1 : ℚ)]] (YIn.vec [0])
        none [1]).1.loss =
      some ((gradient_descent
        (buildProblem outId lossZero
          (NetworkWeights.init [[(1 : ℚ)]] (reshapeY (YIn.vec [0]))
            (fitNodeList nnW8 [[(1 : ℚ)]] (reshapeY (YIn.vec [0]))) nnW8.activation
            nnW8.bias nnW8.is_classifier nnW8.lr) nnW8.clip_max)
        nnW8.max_attempts nnW8.max_iters ((none : Option (List ℚ)).getD [1])).2)) :=
  ⟨gd_return_convention.1 ℚ pC3 1 1 0, rfl, rfl,
    gd_return_convention.2 rhcW saW gaW outId lossZero nnW8 [[(1 : ℚ)]]
      (YIn.vec [0]) none [1] rfl rfl⟩

/-- C10: With `early_stopping = False` (the default), the constructor stores
`max_attempts = max_iters`; and since `attempts` grows by at most one per
iteration from zero, a gradient-descent run with equal budgets can never
stall on attempts before the iteration budget is exhausted: the loop always
runs exactly `max_iters` iterations, so the attempts counter is effectively
disabled. -/
theorem early_stopping_default_disabled :
    (∀ (identityF reluF sigmoidF tanhF : Bool → ℚ → ℚ) (hidden_nodes : List Nat)
        (activation algorithm : String) (max_iters : Nat) (bias is_classifier : Bool)
        (lr clip_max : ℚ) (schedule : Nat → ℚ) (pop_size : Nat) (mutation_prob : ℚ)
        (max_attempts : Nat) (nn : NeuralNetwork),
      NeuralNetwork.init identityF reluF sigmoidF tanhF hidden_nodes activation
          algorithm max_iters bias is_classifier lr false clip_max schedule pop_size
          mutation_prob max_attempts = Except.ok nn →
      nn.max_attempts = nn.max_iters) ∧
    (∀ (σ : Type) (p : ContinuousOpt σ) (maxI : Nat) (s0 : σ),
      (gdRun p maxI maxI (gdInit p s0)).iters = maxI) := by
  constructor
  · intro idF reluF sigF tanhF hidden act alg maxI bias cls lr cmax sched ps mp maxA nn h
    simp only [NeuralNetwork.init] at h
    split at h
    · exact absurd h (by simp)
    · split at h
      · exact absurd h (by simp)
      · have h2 := Except.ok.inj h
        rw [← h2]
        simp
  · intro σ p maxI s0
    exact gdRun_full_budget p maxI s0

/-- A concrete facade object as built by `NeuralNetwork.init` with
`early_stopping = false`, `max_iters = 7`. -/
def nnW10 : NeuralNetwork :=
  { hidden_nodes := []
    max_iters := 7
    bias := true
    is_classifier := true
    lr := 1
    early_stopping := false
    clip_max := 1
    schedule := fun _ => 1
    pop_size := 2
    mutation_prob := 1
    activation := actId
    algorithm := Algo.gradient_descent
    max_attempts := 7
    node_list := []
    fitted_weights := []
    loss := none
    output_activation := none }

/-- Witness for C10 at a concrete construction with `max_iters = 7`,
`max_attempts = 3`, `early_stopping = false`, and a concrete two-iteration
budget run. -/
theorem early_stopping_default_disabled_wit :
    nnW10.max_attempts = nnW10.max_iters ∧
    (gdRun pC3 2 2 (gdInit pC3 0)).iters = 2 :=
  ⟨early_stopping_default_disabled.1 actId actId actId actId [] "relu"
      "gradient_descent" 7 true true 1 1 (fun _ => 1) 2 1 3 nnW10 rfl,
    early_stopping_default_disabled.2 ℚ pC3 2 0⟩
